import Mathlib

/-!
Verification of the `patchelfdd` ELF patch planner and applier.

The Rust sources (`src/serialize.rs`, `src/patch.rs`, `src/patchelfdd.rs`,
`src/sparse_elf.rs`) are shallowly embedded below.  Machine integers are
modelled as `Nat`/`Int` with explicit range checks where the source performs
checked conversions or checked arithmetic (`usize` is 64 bits wide, as on the
64-bit hosts the crate targets).  Rust byte strings (`&str`, `Vec<u8>`) are
modelled as `List Nat` of byte values; `str::len` is a byte count, which the
`ascii` helper matches for the ASCII-only names the program compares against.
Fallible Rust functions returning `Result` are modelled as `Except`.
-/

deriving instance DecidableEq for Except

/-- ELF class, mirroring `elf::file::Class` (named `ElfClass` here because
`Class` collides with a Mathlib name). -/
inductive ElfClass where
  | ELF32
  | ELF64
deriving DecidableEq, Repr

/-- Endianness, mirroring `elf::endian::AnyEndian`. -/
inductive AnyEndian where
  | Little
  | Big
deriving DecidableEq, Repr

/-- Error type of `serialize.rs` (`serialize::Error`): the only variant is
`IntConversion`, produced when narrowing to 32 bits loses information. -/
inductive SerializeError where
  | IntConversion
deriving DecidableEq, Repr

/-- Little-endian byte decomposition of a natural number into `w` bytes,
mirroring Rust's `to_le_bytes` on the value's bit pattern. -/
def natToLeBytes (w v : Nat) : List Nat :=
  (List.range w).map (fun i => v / 256 ^ i % 256)

/-- Order a little-endian byte list according to the configured endianness:
`to_be_bytes` is the byte-reverse of `to_le_bytes`. -/
def AnyEndian.orient (e : AnyEndian) (bs : List Nat) : List Nat :=
  match e with
  | .Little => bs
  | .Big => bs.reverse

/-- Width in bytes of one serialized machine word for a class (4 on ELF32,
8 on ELF64), as produced by `ArchLong::len`. -/
def wordWidth (cls : ElfClass) : Nat :=
  match cls with
  | .ELF32 => 4
  | .ELF64 => 8

/-- `ArchSerializer::bytes_from_signed_long` from `serialize.rs`: on ELF32 the
`i64` input is narrowed with `i32::try_from` (failing with `IntConversion`
outside `i32` range) and emitted as 4 bytes; on ELF64 the full 64-bit value is
emitted as 8 bytes.  The byte pattern of a signed value is its two's
complement, i.e. `val mod 2^width`. -/
def bytes_from_signed_long (cls : ElfClass) (e : AnyEndian) (val : Int) :
    Except SerializeError (List Nat) :=
  match cls with
  | .ELF32 =>
      if -(2 ^ 31 : Int) ≤ val ∧ val < 2 ^ 31 then
        .ok (e.orient (natToLeBytes 4 (val % (2 ^ 32 : Int)).toNat))
      else
        .error .IntConversion
  | .ELF64 => .ok (e.orient (natToLeBytes 8 (val % (2 ^ 64 : Int)).toNat))

/-- `ArchSerializer::bytes_from_unsigned_long` from `serialize.rs`: on ELF32
the `u64` input is narrowed with `u32::try_from` (failing with
`IntConversion` when it does not fit); on ELF64 the full value is used. -/
def bytes_from_unsigned_long (cls : ElfClass) (e : AnyEndian) (val : Nat) :
    Except SerializeError (List Nat) :=
  match cls with
  | .ELF32 =>
      if val < 2 ^ 32 then
        .ok (e.orient (natToLeBytes 4 val))
      else
        .error .IntConversion
  | .ELF64 => .ok (e.orient (natToLeBytes 8 (val % 2 ^ 64)))

/-- Range of `i32` (ELF32) resp. `i64` (ELF64) input values: the values for
which the narrowing conversion in the serializer succeeds.  On ELF64 this is
the full range of the Rust argument type `i64`. -/
def signedInRange (cls : ElfClass) (v : Int) : Prop :=
  match cls with
  | .ELF32 => -(2 ^ 31 : Int) ≤ v ∧ v < 2 ^ 31
  | .ELF64 => -(2 ^ 63 : Int) ≤ v ∧ v < 2 ^ 63

/-- Range of `u32` (ELF32) resp. `u64` (ELF64) input values. -/
def unsignedInRange (cls : ElfClass) (v : Nat) : Prop :=
  match cls with
  | .ELF32 => v < 2 ^ 32
  | .ELF64 => v < 2 ^ 64

instance (cls : ElfClass) (v : Int) : Decidable (signedInRange cls v) := by
  unfold signedInRange
  cases cls <;> exact inferInstance

instance (cls : ElfClass) (v : Nat) : Decidable (unsignedInRange cls v) := by
  unfold unsignedInRange
  cases cls <;> exact inferInstance

theorem natToLeBytes_length (w v : Nat) : (natToLeBytes w v).length = w := by
  simp [natToLeBytes]

theorem orient_length (e : AnyEndian) (bs : List Nat) :
    (e.orient bs).length = bs.length := by
  cases e <;> simp [AnyEndian.orient]

/-- C6: for every class and endianness, encoding an in-range integer with
`bytes_from_signed_long` or `bytes_from_unsigned_long` succeeds and yields
exactly `wordWidth` bytes (4 on ELF32, 8 on ELF64); the big-endian encoding is
the byte-reverse of the little-endian one (the configured byte order); and the
four known vectors hold: ELF32/LE signed −1234 ↦ `[0x2e, 0xfb, 0xff, 0xff]`,
ELF32/BE signed −1234 ↦ `[0xff, 0xff, 0xfb, 0x2e]`, ELF64/LE unsigned
0x133708 ↦ `[8, 0x37, 0x13, 0, 0, 0, 0, 0]`, ELF64/BE unsigned 0x133708 ↦
`[0, 0, 0, 0, 0, 0x13, 0x37, 8]`. -/
theorem serializer_word_widths_and_vectors :
    (∀ (cls : ElfClass) (e : AnyEndian) (v : Int), signedInRange cls v →
      ∃ bs, bytes_from_signed_long cls e v = .ok bs ∧ bs.length = wordWidth cls) ∧
    (∀ (cls : ElfClass) (e : AnyEndian) (v : Nat), unsignedInRange cls v →
      ∃ bs, bytes_from_unsigned_long cls e v = .ok bs ∧ bs.length = wordWidth cls) ∧
    (∀ (cls : ElfClass) (v : Int),
      bytes_from_signed_long cls .Big v =
        (bytes_from_signed_long cls .Little v).map List.reverse) ∧
    bytes_from_signed_long .ELF32 .Little (-1234) = .ok [0x2e, 0xfb, 0xff, 0xff] ∧
    bytes_from_signed_long .ELF32 .Big (-1234) = .ok [0xff, 0xff, 0xfb, 0x2e] ∧
    bytes_from_unsigned_long .ELF64 .Little 0x133708 =
      .ok [0x08, 0x37, 0x13, 0, 0, 0, 0, 0] ∧
    bytes_from_unsigned_long .ELF64 .Big 0x133708 =
      .ok [0, 0, 0, 0, 0, 0x13, 0x37, 0x08] := by
  refine ⟨?_, ?_, ?_, rfl, rfl, rfl, rfl⟩
  · intro cls e v h
    cases cls with
    | ELF32 =>
        refine ⟨_, if_pos h, ?_⟩
        simp [orient_length, natToLeBytes_length, wordWidth]
    | ELF64 =>
        refine ⟨_, rfl, ?_⟩
        simp [orient_length, natToLeBytes_length, wordWidth]
  · intro cls e v h
    cases cls with
    | ELF32 =>
        refine ⟨_, if_pos h, ?_⟩
        simp [orient_length, natToLeBytes_length, wordWidth]
    | ELF64 =>
        refine ⟨_, rfl, ?_⟩
        simp [orient_length, natToLeBytes_length, wordWidth]
  · intro cls v
    cases cls with
    | ELF32 =>
        simp only [bytes_from_signed_long, AnyEndian.orient, Except.map]
        split
        · rfl
        · rfl
    | ELF64 => rfl

/-- Witness for C6: the universally quantified parts applied at concrete
in-range inputs. -/
theorem serializer_word_widths_and_vectors_witness :
    (∃ bs, bytes_from_signed_long .ELF32 .Little (-5) = .ok bs ∧ bs.length = 4) ∧
    (∃ bs, bytes_from_unsigned_long .ELF64 .Big 7 = .ok bs ∧ bs.length = 8) :=
  ⟨serializer_word_widths_and_vectors.1 .ELF32 .Little (-5) (by decide),
   serializer_word_widths_and_vectors.2.1 .ELF64 .Big 7 (by decide)⟩

/-- Byte values of an ASCII string (for ASCII input, `String` length, Rust
`str::len` and the byte count all agree). -/
def ascii (s : String) : List Nat :=
  s.data.map Char.toNat

/-- Rust `str::contains`: `needle` occurs as a contiguous substring of
`hay`. -/
def bytesContains (hay needle : List Nat) : Bool :=
  (List.range (hay.length + 1)).any (fun i => needle.isPrefixOf (hay.drop i))

/-- Modelled from the spec: the parse errors of the external `elf` crate that
this program inspects.  `BadOffset` is the "index out of range / past end of
table" error; `OtherParse` stands for any other (malformed-input) parse error,
which per the spec's design notes must be distinguished from `BadOffset` and
surfaced unchanged. -/
inductive ParseError where
  | BadOffset (off : Nat)
  | OtherParse (code : Nat)
deriving DecidableEq, Repr

/-- One `.dynamic` entry: a `(d_tag, d_val)` pair.  `d_tag` is a signed
machine word (`i64` in the crate's uniform representation), `d_val` an
unsigned one; `d_val` is what the accessor `Dyn::d_val()` returns. -/
structure Dyn where
  d_tag : Int
  d_val : Nat
deriving DecidableEq, Repr

/-- `elf::abi::DT_NULL`. -/
def DT_NULL : Int := 0

/-- `elf::abi::DT_RUNPATH`. -/
def DT_RUNPATH : Int := 29

/-- Modelled from the spec: the dynamic table view returned by
`ElfBytes::dynamic()` (external `elf` crate).  `entries` are the
fully-parseable entries; `tailErr`, when set, is the non-`BadOffset` parse
error produced by reading index `entries.length` from malformed (ragged)
section data.  Reading any index past the parseable entries otherwise fails
with `BadOffset`, the crate's "out of range" error. -/
structure DynTable where
  entries : List Dyn
  tailErr : Option ParseError := none
deriving DecidableEq, Repr

/-- Modelled from the spec: `DynamicTable::get(index)` of the external `elf`
crate — `Ok` within the table, `BadOffset` past its end, and the recorded
malformed-tail error at the first index past the entries when the section
data is ragged. -/
def DynTable.get (t : DynTable) (i : Nat) : Except ParseError Dyn :=
  if h : i < t.entries.length then .ok (t.entries.get ⟨i, h⟩)
  else if i = t.entries.length then
    match t.tailErr with
    | some e => .error e
    | none => .error (.BadOffset i)
  else .error (.BadOffset i)

/-- Modelled from the spec: `StringTable::get(offset)` of the external `elf`
crate over the `.dynstr` section data — the NUL-terminated string starting at
byte `offset`, `BadOffset` if the offset is outside the data, and a
non-`BadOffset` error if no NUL terminator follows. -/
def strtabGet (data : List Nat) (i : Nat) : Except ParseError (List Nat) :=
  if i < data.length then
    let tail := data.drop i
    let s := tail.takeWhile (fun b => b ≠ 0)
    if s.length = tail.length then .error (.OtherParse i) else .ok s
  else .error (.BadOffset i)

/-- A planned byte patch, mirroring `struct Patch` of `patch.rs`. -/
structure Patch where
  offset : Nat
  data : List Nat
deriving DecidableEq, Repr

/-- The error enum of `patch.rs` (`patch::Error`).  The `ReadElf`-style I/O
variants of other modules do not arise in the pure planner. -/
inductive PatchError where
  | ParseElf (source : ParseError)
  | IntConversion
  | Serializing (source : SerializeError)
  | IntegerOverflow
  | NoDynamicSection
  | NoDynstrSection
  | NoInterpSection
  | NoDynstrReplacementCandidate
  | NoApplicableDynamicEntry
  | DynamicSectionNotDelimited
  | CannotFitInterpreterPath (section_size : Nat) (requested_size : Nat)
deriving DecidableEq, Repr

/-- Section header data the planner reads: `sh_offset` and `sh_size`
(`usize`-converted, which never fails on a 64-bit host). -/
structure SectionHeader where
  sh_offset : Nat
  sh_size : Nat
deriving DecidableEq, Repr

/-- The parsed ELF view the planner consults (`ElfBytes` as used by
`patch.rs`/`patchelfdd.rs`): class and endianness from the header, the
`.interp` section header, the `.dynstr` section header plus its data (whose
length equals `sh_size(.dynstr)` — `section_data_as_strtab` returns exactly
the section's bytes), and the `.dynamic` section offset plus its parsed
table.  The model covers views where the three sections are present and their
headers parse (otherwise every planner operation fails before reaching the
logic the claims are about). -/
structure ElfView where
  cls : ElfClass
  endianness : AnyEndian
  shdr_interp : SectionHeader
  dynstr_offset : Nat
  dynstr_data : List Nat
  dynamic_offset : Nat
  dynamic_table : DynTable
deriving DecidableEq, Repr

/-- `enum DynstrPatchCandidate` from `patch.rs`. -/
inductive DynstrPatchCandidate where
  | GmonStart
  | ITMDeregisterTMCloneTable
deriving DecidableEq, Repr

/-- `DynstrPatchCandidate::from_string`. -/
def DynstrPatchCandidate.from_string (data : List Nat) :
    Option DynstrPatchCandidate :=
  if data = ascii "__gmon_start__" then some .GmonStart
  else if data = ascii "_ITM_deregisterTMCloneTable" then
    some .ITMDeregisterTMCloneTable
  else none

/-- `DynstrPatchCandidate::rank` — the source comment says "low has higher
priority". -/
def DynstrPatchCandidate.rank (c : DynstrPatchCandidate) : Option Nat :=
  match c with
  | .GmonStart => some 10
  | .ITMDeregisterTMCloneTable => some 1

/-- `check_gprof`'s scan loop over `.dynstr` from offset 1: returns `false`
as soon as an entry contains the substring `mcount`, `true` when the scan
passes `sh_size`.  The loop is embedded with explicit fuel; each iteration
advances the index by at least one, so `data.length + 1` fuel always
outlasts the loop and the zero-fuel branch is unreachable. -/
def check_gprof_loop (data : List Nat) : Nat → Nat → Except PatchError Bool
  | 0, _ => .ok true
  | fuel + 1, idx =>
    if idx < data.length then
      match strtabGet data idx with
      | .error e => .error (.ParseElf e)
      | .ok entry =>
        if bytesContains entry (ascii "mcount") then .ok false
        else check_gprof_loop data fuel (idx + entry.length + 1)
    else .ok true

/-- `DynstrPatchCandidate::check_gprof` from `patch.rs`. -/
def check_gprof (elf : ElfView) : Except PatchError Bool :=
  check_gprof_loop elf.dynstr_data (elf.dynstr_data.length + 1) 1

/-- `DynstrPatchCandidate::check_valid` from `patch.rs`: the `GmonStart`
candidate runs the gprof check; the `ITMDeregisterTMCloneTable` arm returns
`Ok(true)` unconditionally (the source carries a `TODO` about adding checks
that the symbols are not actively used). -/
def check_valid (c : DynstrPatchCandidate) (elf : ElfView) :
    Except PatchError Bool :=
  match c with
  | .GmonStart => check_gprof elf
  | .ITMDeregisterTMCloneTable => .ok true

/-- `Patcher::set_interpreter_path` from `patch.rs`, returning the single
patch it appends: rejected with `CannotFitInterpreterPath` when
`sh_size(.interp) < len(new_path)`, otherwise a patch at `sh_offset(.interp)`
of `len(new_path) + 1` zero-initialised bytes whose first `len` bytes are the
path (so the bytes are the path followed by one NUL). -/
def set_interpreter_path (elf : ElfView) (new_interpreter_path : List Nat) :
    Except PatchError Patch :=
  if elf.shdr_interp.sh_size < new_interpreter_path.length then
    .error (.CannotFitInterpreterPath elf.shdr_interp.sh_size
      new_interpreter_path.length)
  else
    .ok ⟨elf.shdr_interp.sh_offset, new_interpreter_path ++ [0]⟩

/-- The candidate-collection loop of `Patcher::set_runpath_dynstr`: scan
`.dynstr` from the given index, and for every entry that parses as a
recognized name, has length at least `len(new_runpath)`, and passes
`check_valid`, record `(candidate, offset)`.  Fuel as in
`check_gprof_loop`. -/
def collect_candidates_loop (elf : ElfView) (new_runpath : List Nat) :
    Nat → Nat → Except PatchError (List (DynstrPatchCandidate × Nat))
  | 0, _ => .ok []
  | fuel + 1, idx =>
    if idx < elf.dynstr_data.length then
      match strtabGet elf.dynstr_data idx with
      | .error e => .error (.ParseElf e)
      | .ok entry =>
        match DynstrPatchCandidate.from_string entry with
        | some candidate =>
          if new_runpath.length ≤ entry.length then
            match check_valid candidate elf with
            | .error e => .error e
            | .ok true =>
              match collect_candidates_loop elf new_runpath fuel
                  (idx + entry.length + 1) with
              | .error e => .error e
              | .ok rest => .ok ((candidate, idx) :: rest)
            | .ok false =>
              collect_candidates_loop elf new_runpath fuel
                (idx + entry.length + 1)
          else
            collect_candidates_loop elf new_runpath fuel (idx + entry.length + 1)
        | none =>
          collect_candidates_loop elf new_runpath fuel (idx + entry.length + 1)
    else .ok []

/-- Rust's `Ord` on `Option<u16>`: `None` is smaller than any `Some`. -/
def rank_key_le (a b : Option Nat) : Bool :=
  match a, b with
  | none, _ => true
  | some _, none => false
  | some x, some y => x ≤ y

/-- One fold step of Rust's `max_by_key`: keep the element with the
greatest key, replacing the accumulator whenever the new key is greater or
equal (so ties keep the **last** maximal element). -/
def pick_max_rank (acc : Option (DynstrPatchCandidate × Nat))
    (x : DynstrPatchCandidate × Nat) : Option (DynstrPatchCandidate × Nat) :=
  match acc with
  | none => some x
  | some a => if rank_key_le a.1.rank x.1.rank then some x else some a

/-- `dynstr_candidates.iter().max_by_key(|a| a.0.rank())`. -/
def max_by_rank (l : List (DynstrPatchCandidate × Nat)) :
    Option (DynstrPatchCandidate × Nat) :=
  l.foldl pick_max_rank none

/-- `Patcher::set_runpath_dynstr` from `patch.rs`, returning the appended
patch together with the victim's `.dynstr` offset: collect candidates from
offset 1, pick `max_by_key(rank)` (failing with
`NoDynstrReplacementCandidate` on an empty collection), re-read the chosen
entry (for the warning message, propagating its parse error), and emit a
patch at `sh_offset(.dynstr) + victim_offset` whose bytes are the new
runpath followed by one NUL. -/
def set_runpath_dynstr (elf : ElfView) (new_runpath : List Nat) :
    Except PatchError (Patch × Nat) :=
  match collect_candidates_loop elf new_runpath (elf.dynstr_data.length + 1) 1 with
  | .error e => .error e
  | .ok dynstr_candidates =>
    match max_by_rank dynstr_candidates with
    | none => .error .NoDynstrReplacementCandidate
    | some best =>
      match strtabGet elf.dynstr_data best.2 with
      | .error e => .error (.ParseElf e)
      | .ok _ =>
        .ok (⟨elf.dynstr_offset + best.2, new_runpath ++ [0]⟩, best.2)

/-- `size_of::<Elf32_Dyn>()` = 8 and `size_of::<Elf64_Dyn>()` = 16: the
width of one `.dynamic` entry. -/
def entry_size (cls : ElfClass) : Nat :=
  match cls with
  | .ELF32 => 8
  | .ELF64 => 16

/-- `usize::MAX` on the 64-bit hosts the crate targets. -/
def USIZE_MAX : Nat := 2 ^ 64 - 1

/-- `usize::checked_mul`. -/
def checked_mul (a b : Nat) : Option Nat :=
  if a * b ≤ USIZE_MAX then some (a * b) else none

/-- `usize::checked_add`. -/
def checked_add (a b : Nat) : Option Nat :=
  if a + b ≤ USIZE_MAX then some (a + b) else none

/-- The slot-selection portion of `Patcher::set_runpath_dynamic`: find the
first `DT_NULL` entry at index `k` (`NoApplicableDynamicEntry` when the table
has none); keep slot `k` when index `k + 1` is readable; on a `BadOffset`
failure fall back to the first entry whose `d_val` equals the overwritten
`.dynstr` offset (`NoApplicableDynamicEntry` when none exists); surface any
other parse error unchanged as `ParseElf`. -/
def choose_dyn_slot (t : DynTable) (dynstr_entry_offset : Nat) :
    Except PatchError Nat :=
  match t.entries.findIdx? (fun d => d.d_tag == DT_NULL) with
  | none => .error .NoApplicableDynamicEntry
  | some k =>
    match t.get (k + 1) with
    | .ok _ => .ok k
    | .error (.BadOffset _) =>
      match t.entries.findIdx? (fun d => d.d_val == dynstr_entry_offset) with
      | some j => .ok j
      | none => .error .NoApplicableDynamicEntry
    | .error e => .error (.ParseElf e)

/-- `Patcher::set_runpath_dynamic` from `patch.rs`, returning the appended
patch: choose a slot, compute
`sh_offset(.dynamic) + slot * entry_size` with checked multiplication and
addition (overflow yields `IntegerOverflow`), serialize `DT_RUNPATH` as a
signed word and the victim offset as an unsigned word, and emit one patch
whose bytes are their concatenation. -/
def set_runpath_dynamic (elf : ElfView) (dynstr_entry_offset : Nat) :
    Except PatchError Patch :=
  match choose_dyn_slot elf.dynamic_table dynstr_entry_offset with
  | .error e => .error e
  | .ok dyn_entry_position =>
    match checked_mul dyn_entry_position (entry_size elf.cls) with
    | none => .error .IntegerOverflow
    | some dyn_table_offset =>
      match checked_add elf.dynamic_offset dyn_table_offset with
      | none => .error .IntegerOverflow
      | some dyn_entry_offset =>
        match bytes_from_signed_long elf.cls elf.endianness DT_RUNPATH with
        | .error e => .error (.Serializing e)
        | .ok dyn_d_tag_data =>
          match bytes_from_unsigned_long elf.cls elf.endianness
              dynstr_entry_offset with
          | .error e => .error (.Serializing e)
          | .ok dyn_d_un_data =>
            .ok ⟨dyn_entry_offset, dyn_d_tag_data ++ dyn_d_un_data⟩

/-- `Patcher::set_runpath` from `patch.rs`: phase (a) then phase (b); the
two patches are appended in that order. -/
def set_runpath (elf : ElfView) (new_runpath : List Nat) :
    Except PatchError (List Patch) :=
  match set_runpath_dynstr elf new_runpath with
  | .error e => .error e
  | .ok result =>
    match set_runpath_dynamic elf result.2 with
    | .error e => .error e
    | .ok p2 => .ok [result.1, p2]

/-- One iteration of `Patcher::apply_patches_to`: if the patch ends past the
current end of the buffer, the buffer is first resized (zero-filled) up to
the patch end; then the patch bytes are copied over the range
`[offset, offset + len)`. -/
def apply_patch (binary_data : List Nat) (patch : Patch) : List Nat :=
  let patch_end := patch.offset + patch.data.length
  let padded :=
    if binary_data.length < patch_end then
      binary_data ++ List.replicate (patch_end - binary_data.length) 0
    else binary_data
  padded.take patch.offset ++ patch.data ++ padded.drop patch_end

/-- `Patcher::apply_patches_to` from `patch.rs`: apply the patches in the
order they were appended (the source carries a `TODO: Add overlap check`). -/
def apply_patches_to (patches : List Patch) (binary_data : List Nat) :
    List Nat :=
  patches.foldl apply_patch binary_data

/-- The error enum of `patchelfdd.rs` (`patchelfdd::Error`).  The
`ReadElf`/`WriteElf` I/O variants concern the filesystem and do not arise in
the pure planning model. -/
inductive RunError where
  | ParseElf (source : ParseError)
  | PatchElf (source : PatchError)
  | IntConversion
  | NoDynamicSection
  | RunpathAlreadySet
deriving DecidableEq, Repr

/-- The scan loop of `has_dt_runpath` (`patchelfdd.rs`): for each index
`i in 0..len`, read entry `i` (propagating parse errors) and return `true`
upon the first `DT_RUNPATH` tag.  Fuel equals the remaining iteration count,
so the zero-fuel branch coincides with the loop's normal exit. -/
def has_dt_runpath_loop (t : DynTable) : Nat → Nat → Except ParseError Bool
  | 0, _ => .ok false
  | fuel + 1, i =>
    if i < t.entries.length then
      match t.get i with
      | .error e => .error e
      | .ok dyn_entry =>
        if dyn_entry.d_tag == DT_RUNPATH then .ok true
        else has_dt_runpath_loop t fuel (i + 1)
    else .ok false

/-- `has_dt_runpath` from `patchelfdd.rs`. -/
def has_dt_runpath (t : DynTable) : Except ParseError Bool :=
  has_dt_runpath_loop t t.entries.length 0

/-- The planning portion of `run` (`patchelfdd.rs`): the gate
`has_dt_runpath` followed by `set_runpath` when a runpath is requested, then
`set_interpreter_path` when an interpreter is requested; the result is the
patcher's patch list in insertion order. -/
def plan (elf : ElfView) (set_runpath_opt set_interpreter_opt : Option (List Nat)) :
    Except RunError (List Patch) :=
  match set_runpath_opt with
  | some runpath =>
    match has_dt_runpath elf.dynamic_table with
    | .error e => .error (.ParseElf e)
    | .ok true => .error .RunpathAlreadySet
    | .ok false =>
      match set_runpath elf runpath with
      | .error e => .error (.PatchElf e)
      | .ok ps =>
        match set_interpreter_opt with
        | some interpreter_path =>
          match set_interpreter_path elf interpreter_path with
          | .error e => .error (.PatchElf e)
          | .ok p => .ok (ps ++ [p])
        | none => .ok ps
  | none =>
    match set_interpreter_opt with
    | some interpreter_path =>
      match set_interpreter_path elf interpreter_path with
      | .error e => .error (.PatchElf e)
      | .ok p => .ok [p]
    | none => .ok []

/-- `run` from `patchelfdd.rs`, modelled on the file contents: plan, then —
unless the patch list is empty (`Nothing to do`, in which case the file is
not rewritten) — apply the patches to the bytes and write them back.  The
result is the final content of the target file; an error means the run
aborted before `fs::write`, leaving the file bytes untouched. -/
def run_patchelfdd (elf : ElfView) (elf_raw : List Nat)
    (set_runpath_opt set_interpreter_opt : Option (List Nat)) :
    Except RunError (List Nat) :=
  match plan elf set_runpath_opt set_interpreter_opt with
  | .error e => .error e
  | .ok patches =>
    if patches.isEmpty then .ok elf_raw
    else .ok (apply_patches_to patches elf_raw)

/-- A well-formed ELF64 view whose `.dynstr` holds both recognized names —
`_ITM_deregisterTMCloneTable` at offset 1 and `__gmon_start__` at offset 29 —
with neither `libitm.so` nor `mcount` anywhere, so both candidates are
eligible. -/
def bothEligibleView : ElfView :=
  { cls := .ELF64
    endianness := .Little
    shdr_interp := ⟨300, 20⟩
    dynstr_offset := 100
    dynstr_data :=
      [0] ++ ascii "_ITM_deregisterTMCloneTable" ++ [0] ++
        ascii "__gmon_start__" ++ [0]
    dynamic_offset := 200
    dynamic_table := ⟨[⟨0, 0⟩, ⟨0, 0⟩], none⟩ }

/-- C1 (claim false on the code): with both names eligible, the planner
collects both candidates but `max_by_key` selects the candidate with the
**largest** rank value — `__gmon_start__` (rank 10) at offset 29 — rather
than `_ITM_deregisterTMCloneTable` (rank 1) at offset 1 as the claim (and
the source's own comment "low has higher priority") requires. -/
theorem dynstr_selection_prefers_gmon_start :
    collect_candidates_loop bothEligibleView (ascii "/tmp")
        (bothEligibleView.dynstr_data.length + 1) 1 =
      .ok [(.ITMDeregisterTMCloneTable, 1), (.GmonStart, 29)] ∧
    set_runpath_dynstr bothEligibleView (ascii "/tmp") =
      .ok (⟨129, ascii "/tmp" ++ [0]⟩, 29) ∧
    (29 : Nat) ≠ 1 :=
  ⟨rfl, rfl, by decide⟩

/-- A view whose `.dynstr` holds `_ITM_deregisterTMCloneTable` at offset 1
and the entry `libitm.so` at offset 29, so the claim's safety precondition
for the ITM candidate is violated. -/
def libitmView : ElfView :=
  { cls := .ELF64
    endianness := .Little
    shdr_interp := ⟨300, 20⟩
    dynstr_offset := 100
    dynstr_data :=
      [0] ++ ascii "_ITM_deregisterTMCloneTable" ++ [0] ++
        ascii "libitm.so" ++ [0]
    dynamic_offset := 200
    dynamic_table := ⟨[⟨0, 0⟩, ⟨0, 0⟩], none⟩ }

/-- C2 (claim false on the code): although `.dynstr` contains the substring
`libitm.so`, the `_ITM_deregisterTMCloneTable` entry is still collected as an
overwrite candidate — `check_valid` returns `Ok(true)` unconditionally for
the ITM arm — and is in fact chosen as the victim. -/
theorem itm_candidate_collected_despite_libitm :
    bytesContains libitmView.dynstr_data (ascii "libitm.so") = true ∧
    collect_candidates_loop libitmView (ascii "/x")
        (libitmView.dynstr_data.length + 1) 1 =
      .ok [(.ITMDeregisterTMCloneTable, 1)] ∧
    set_runpath_dynstr libitmView (ascii "/x") =
      .ok (⟨101, ascii "/x" ++ [0]⟩, 1) :=
  ⟨rfl, rfl, rfl⟩

/-- A view whose `.interp` section has `sh_size = 4`. -/
def exactFitView : ElfView :=
  { cls := .ELF64
    endianness := .Little
    shdr_interp := ⟨50, 4⟩
    dynstr_offset := 100
    dynstr_data := [0]
    dynamic_offset := 200
    dynamic_table := ⟨[⟨0, 0⟩], none⟩ }

/-- C3 (claim false on the code): a new interpreter path whose length exactly
equals `sh_size(.interp)` is **accepted** — the source only rejects when
`sh_size < len(new_path)` — and the emitted patch is `len + 1` bytes long,
one byte more than the section.  The claim requires this input to be
rejected (`len + 1 ≤ sh_size` fails). -/
theorem set_interpreter_exact_fit_accepted :
    set_interpreter_path exactFitView (ascii "/abc") =
      .ok ⟨50, ascii "/abc" ++ [0]⟩ ∧
    (ascii "/abc").length = exactFitView.shdr_interp.sh_size ∧
    (ascii "/abc" ++ [0]).length = exactFitView.shdr_interp.sh_size + 1 :=
  ⟨rfl, rfl, rfl⟩

theorem has_dt_runpath_loop_ok (t : DynTable) (fuel : Nat) :
    ∀ i, t.entries.length - i ≤ fuel →
      has_dt_runpath_loop t fuel i =
        .ok ((t.entries.drop i).any (fun d => d.d_tag == DT_RUNPATH)) := by
  induction fuel with
  | zero =>
      intro i h
      have hle : t.entries.length ≤ i := by omega
      rw [List.drop_eq_nil_of_le hle]
      simp [has_dt_runpath_loop]
  | succ fuel ih =>
      intro i h
      by_cases hi : i < t.entries.length
      · have hget : t.get i = .ok t.entries[i] := by
          simp [DynTable.get, hi]
        rw [has_dt_runpath_loop, if_pos hi, hget,
          List.drop_eq_getElem_cons hi]
        simp only [List.any_cons]
        cases htag : (t.entries[i].d_tag == DT_RUNPATH) with
        | false => simp [htag, ih (i + 1) (by omega)]
        | true => simp [htag]
      · rw [has_dt_runpath_loop, if_neg hi]
        rw [List.drop_eq_nil_of_le (by omega)]
        simp

theorem has_dt_runpath_eq_any (t : DynTable) :
    has_dt_runpath t =
      .ok (t.entries.any (fun d => d.d_tag == DT_RUNPATH)) := by
  unfold has_dt_runpath
  rw [has_dt_runpath_loop_ok t t.entries.length 0 (by omega)]
  rfl

/-- C5: when a new runpath is requested and the `.dynamic` table already
contains an entry with tag `DT_RUNPATH`, the run fails with
`RunpathAlreadySet`: the gate fires before `set_runpath` emits any patch and
before the apply step, so an error result means the target file is never
rewritten and stays byte-identical to the input. -/
theorem run_with_existing_dt_runpath (elf : ElfView)
    (elf_raw rp : List Nat) (ip : Option (List Nat))
    (h : elf.dynamic_table.entries.any (fun d => d.d_tag == DT_RUNPATH) = true) :
    run_patchelfdd elf elf_raw (some rp) ip = .error .RunpathAlreadySet := by
  have hh : has_dt_runpath elf.dynamic_table = .ok true := by
    rw [has_dt_runpath_eq_any, h]
  unfold run_patchelfdd plan
  rw [hh]

/-- A view whose `.dynamic` table already carries a `DT_RUNPATH` entry. -/
def runpathSetView : ElfView :=
  { cls := .ELF64
    endianness := .Little
    shdr_interp := ⟨300, 20⟩
    dynstr_offset := 100
    dynstr_data := [0] ++ ascii "__gmon_start__" ++ [0]
    dynamic_offset := 200
    dynamic_table := ⟨[⟨29, 5⟩, ⟨0, 0⟩, ⟨0, 0⟩], none⟩ }

/-- Witness for C5 at a concrete input. -/
theorem run_with_existing_dt_runpath_witness :
    runpathSetView.dynamic_table.entries.any
        (fun d => d.d_tag == DT_RUNPATH) = true ∧
    run_patchelfdd runpathSetView [1, 2, 3] (some (ascii "/r")) none =
      .error .RunpathAlreadySet :=
  ⟨rfl, run_with_existing_dt_runpath runpathSetView [1, 2, 3] (ascii "/r")
    none rfl⟩

/-- C7: phase (b) slot selection.  Given that the first `DT_NULL` entry of
the dynamic table sits at index `k`: (i) when index `k + 1` reads
successfully the chosen slot is `k`; (ii) when reading `k + 1` fails with
the out-of-range error (`BadOffset`) the planner instead takes the first
entry whose `d_val` equals the victim's `.dynstr` offset, failing with
`NoApplicableDynamicEntry` if none exists; (iii) any other parse error from
reading `k + 1` is surfaced unchanged as a `ParseElf` error; and (iv) an
error outcome of the slot selection is the outcome of
`set_runpath_dynamic` itself. -/
theorem choose_dyn_slot_strategy (t : DynTable) (victim k : Nat)
    (hk : t.entries.findIdx? (fun d => d.d_tag == DT_NULL) = some k) :
    (∀ d, t.get (k + 1) = .ok d → choose_dyn_slot t victim = .ok k) ∧
    (∀ j, t.get (k + 1) = .error (.BadOffset j) →
       choose_dyn_slot t victim =
         match t.entries.findIdx? (fun d => d.d_val == victim) with
         | some i => .ok i
         | none => .error .NoApplicableDynamicEntry) ∧
    (∀ c, t.get (k + 1) = .error (.OtherParse c) →
       choose_dyn_slot t victim = .error (.ParseElf (.OtherParse c))) ∧
    (∀ (elf : ElfView) (e : PatchError), elf.dynamic_table = t →
       choose_dyn_slot t victim = .error e →
       set_runpath_dynamic elf victim = .error e) := by
  refine ⟨?_, ?_, ?_, ?_⟩
  · intro d hd
    simp [choose_dyn_slot, hk, hd]
  · intro j hj
    simp [choose_dyn_slot, hk, hj]
  · intro c hc
    simp [choose_dyn_slot, hk, hc]
  · intro elf e het he
    simp [set_runpath_dynamic, het, he]

/-- A dynamic table whose first `DT_NULL` terminator is followed by a
readable entry. -/
def twoEntryTable : DynTable := ⟨[⟨0, 5⟩, ⟨1, 2⟩], none⟩

/-- Witness for C7 at a concrete input. -/
theorem choose_dyn_slot_strategy_witness :
    twoEntryTable.entries.findIdx? (fun d => d.d_tag == DT_NULL) = some 0 ∧
    twoEntryTable.get 1 = .ok ⟨1, 2⟩ ∧
    choose_dyn_slot twoEntryTable 7 = .ok 0 :=
  ⟨rfl, rfl, (choose_dyn_slot_strategy twoEntryTable 7 0 rfl).1 ⟨1, 2⟩ rfl⟩

theorem checked_mul_some (a b c : Nat) (h : checked_mul a b = some c) :
    c = a * b ∧ a * b ≤ USIZE_MAX := by
  unfold checked_mul at h
  split at h
  · exact ⟨(Option.some.inj h).symm, by assumption⟩
  · simp at h

theorem checked_add_some (a b c : Nat) (h : checked_add a b = some c) :
    c = a + b ∧ a + b ≤ USIZE_MAX := by
  unfold checked_add at h
  split at h
  · exact ⟨(Option.some.inj h).symm, by assumption⟩
  · simp at h

theorem set_runpath_dynamic_ok_elim (elf : ElfView) (victim : Nat) (p : Patch)
    (h : set_runpath_dynamic elf victim = .ok p) :
    ∃ slot tag val,
      choose_dyn_slot elf.dynamic_table victim = .ok slot ∧
      slot * entry_size elf.cls ≤ USIZE_MAX ∧
      elf.dynamic_offset + slot * entry_size elf.cls ≤ USIZE_MAX ∧
      p.offset = elf.dynamic_offset + slot * entry_size elf.cls ∧
      bytes_from_signed_long elf.cls elf.endianness DT_RUNPATH = .ok tag ∧
      bytes_from_unsigned_long elf.cls elf.endianness victim = .ok val ∧
      p.data = tag ++ val := by
  cases hc : choose_dyn_slot elf.dynamic_table victim with
  | error e => simp [set_runpath_dynamic, hc] at h
  | ok slot =>
    cases hm : checked_mul slot (entry_size elf.cls) with
    | none => simp [set_runpath_dynamic, hc, hm] at h
    | some toff =>
      obtain ⟨rfl, hmle⟩ := checked_mul_some _ _ _ hm
      cases ha : checked_add elf.dynamic_offset
          (slot * entry_size elf.cls) with
      | none => simp [set_runpath_dynamic, hc, hm, ha] at h
      | some off =>
        obtain ⟨rfl, hale⟩ := checked_add_some _ _ _ ha
        cases hst : bytes_from_signed_long elf.cls elf.endianness
            DT_RUNPATH with
        | error e => simp [set_runpath_dynamic, hc, hm, ha, hst] at h
        | ok tag =>
          cases hsu : bytes_from_unsigned_long elf.cls elf.endianness
              victim with
          | error e =>
            simp [set_runpath_dynamic, hc, hm, ha, hst, hsu] at h
          | ok val =>
            simp only [set_runpath_dynamic, hc, hm, ha, hst, hsu] at h
            obtain rfl : p =
                ⟨elf.dynamic_offset + slot * entry_size elf.cls,
                  tag ++ val⟩ := (Except.ok.inj h).symm
            exact ⟨slot, tag, val, rfl, hmle, hale, rfl, rfl, rfl, rfl⟩

/-- C8: the `.dynamic` entry width is 8 bytes on ELF32 and 16 on ELF64; the
slot's file offset `sh_offset(.dynamic) + slot * entry_size` is computed
with checked multiplication and addition, each overflow yielding
`IntegerOverflow`; and on success phase (b) emits exactly one patch at that
offset whose bytes are `encode_signed(DT_RUNPATH) ++
encode_unsigned(victim_offset)` in the file's class and endianness. -/
theorem set_runpath_dynamic_patch_layout :
    entry_size .ELF32 = 8 ∧ entry_size .ELF64 = 16 ∧
    (∀ (elf : ElfView) (victim slot : Nat),
       choose_dyn_slot elf.dynamic_table victim = .ok slot →
       USIZE_MAX < slot * entry_size elf.cls →
       set_runpath_dynamic elf victim = .error .IntegerOverflow) ∧
    (∀ (elf : ElfView) (victim slot : Nat),
       choose_dyn_slot elf.dynamic_table victim = .ok slot →
       slot * entry_size elf.cls ≤ USIZE_MAX →
       USIZE_MAX < elf.dynamic_offset + slot * entry_size elf.cls →
       set_runpath_dynamic elf victim = .error .IntegerOverflow) ∧
    (∀ (elf : ElfView) (victim : Nat) (p : Patch),
       set_runpath_dynamic elf victim = .ok p →
       ∃ slot tag val,
         choose_dyn_slot elf.dynamic_table victim = .ok slot ∧
         slot * entry_size elf.cls ≤ USIZE_MAX ∧
         elf.dynamic_offset + slot * entry_size elf.cls ≤ USIZE_MAX ∧
         p.offset = elf.dynamic_offset + slot * entry_size elf.cls ∧
         bytes_from_signed_long elf.cls elf.endianness DT_RUNPATH = .ok tag ∧
         bytes_from_unsigned_long elf.cls elf.endianness victim = .ok val ∧
         p.data = tag ++ val) := by
  refine ⟨rfl, rfl, ?_, ?_, ?_⟩
  · intro elf victim slot hc hov
    have hm : checked_mul slot (entry_size elf.cls) = none := by
      unfold checked_mul
      rw [if_neg (by omega)]
    simp [set_runpath_dynamic, hc, hm]
  · intro elf victim slot hc hle hov
    have hm : checked_mul slot (entry_size elf.cls) =
        some (slot * entry_size elf.cls) := by
      unfold checked_mul
      rw [if_pos hle]
    have ha : checked_add elf.dynamic_offset (slot * entry_size elf.cls) =
        none := by
      unfold checked_add
      rw [if_neg (by omega)]
    simp [set_runpath_dynamic, hc, hm, ha]
  · exact set_runpath_dynamic_ok_elim

/-- A view whose dynamic table has two consecutive `DT_NULL` entries. -/
def dynSlotView : ElfView :=
  { cls := .ELF64
    endianness := .Little
    shdr_interp := ⟨300, 20⟩
    dynstr_offset := 100
    dynstr_data := [0]
    dynamic_offset := 200
    dynamic_table := ⟨[⟨0, 0⟩, ⟨0, 0⟩], none⟩ }

/-- Witness for C8 at a concrete input. -/
theorem set_runpath_dynamic_patch_layout_witness :
    ∃ slot tag val,
      choose_dyn_slot dynSlotView.dynamic_table 7 = .ok slot ∧
      slot * entry_size dynSlotView.cls ≤ USIZE_MAX ∧
      dynSlotView.dynamic_offset + slot * entry_size dynSlotView.cls ≤
        USIZE_MAX ∧
      (Patch.mk 200 [29, 0, 0, 0, 0, 0, 0, 0, 7, 0, 0, 0, 0, 0, 0, 0]).offset =
        dynSlotView.dynamic_offset + slot * entry_size dynSlotView.cls ∧
      bytes_from_signed_long dynSlotView.cls dynSlotView.endianness
        DT_RUNPATH = .ok tag ∧
      bytes_from_unsigned_long dynSlotView.cls dynSlotView.endianness 7 =
        .ok val ∧
      (Patch.mk 200 [29, 0, 0, 0, 0, 0, 0, 0, 7, 0, 0, 0, 0, 0, 0, 0]).data =
        tag ++ val :=
  set_runpath_dynamic_patch_layout.2.2.2.2 dynSlotView 7
    ⟨200, [29, 0, 0, 0, 0, 0, 0, 0, 7, 0, 0, 0, 0, 0, 0, 0]⟩ rfl

/-- C10: the `DT_RUNPATH`-already-present gate is only consulted when a new
runpath is requested.  A run that only sets the interpreter, on a view whose
dynamic table does contain a `DT_RUNPATH` entry, never fails with
`RunpathAlreadySet`: it either rejects an oversized path with
`CannotFitInterpreterPath` or plans and applies the interpreter patch
normally. -/
theorem interpreter_only_run_ignores_dt_runpath (elf : ElfView)
    (elf_raw ip : List Nat)
    (h : elf.dynamic_table.entries.any (fun d => d.d_tag == DT_RUNPATH) = true) :
    run_patchelfdd elf elf_raw none (some ip) =
      if elf.shdr_interp.sh_size < ip.length then
        .error (.PatchElf
          (.CannotFitInterpreterPath elf.shdr_interp.sh_size ip.length))
      else
        .ok (apply_patches_to [⟨elf.shdr_interp.sh_offset, ip ++ [0]⟩]
          elf_raw) := by
  by_cases hfit : elf.shdr_interp.sh_size < ip.length
  · simp [run_patchelfdd, plan, set_interpreter_path, hfit]
  · simp [run_patchelfdd, plan, set_interpreter_path, hfit, apply_patches_to]

/-- Witness for C10: on `runpathSetView` (which has `DT_RUNPATH` set) an
interpreter-only run applies the interpreter patch. -/
theorem interpreter_only_run_ignores_dt_runpath_witness :
    runpathSetView.dynamic_table.entries.any
        (fun d => d.d_tag == DT_RUNPATH) = true ∧
    run_patchelfdd runpathSetView (List.replicate 330 1) none
        (some (ascii "/i")) =
      .ok (apply_patches_to [⟨300, ascii "/i" ++ [0]⟩]
        (List.replicate 330 1)) := by
  constructor
  · rfl
  · rw [interpreter_only_run_ignores_dt_runpath runpathSetView
      (List.replicate 330 1) (ascii "/i") rfl]
    rfl

theorem apply_patch_of_le (d : List Nat) (p : Patch)
    (h : p.offset + p.data.length ≤ d.length) :
    apply_patch d p =
      d.take p.offset ++ p.data ++ d.drop (p.offset + p.data.length) := by
  simp only [apply_patch]
  rw [if_neg (by omega)]

theorem apply_patch_length (d : List Nat) (p : Patch)
    (h : p.offset + p.data.length ≤ d.length) :
    (apply_patch d p).length = d.length := by
  rw [apply_patch_of_le d p h]
  simp
  omega

theorem apply_patch_getElem_outside (d : List Nat) (p : Patch)
    (h : p.offset + p.data.length ≤ d.length) (i : Nat)
    (hi : i < p.offset ∨ p.offset + p.data.length ≤ i) :
    (apply_patch d p)[i]? = d[i]? := by
  rw [apply_patch_of_le d p h]
  rcases hi with hi | hi
  · have h1 : i < (d.take p.offset).length := by
      simp
      omega
    have h2 : i < (d.take p.offset ++ p.data).length := by
      simp
      omega
    rw [List.getElem?_append_left h2, List.getElem?_append_left h1,
      List.getElem?_take, if_pos hi]
  · have hlen2 : (d.take p.offset ++ p.data).length =
        p.offset + p.data.length := by
      simp
      omega
    rw [List.getElem?_append_right (by rw [hlen2]; omega),
      List.getElem?_drop]
    congr 1
    rw [hlen2]
    omega

/-- C4 (amended): applying a patch set whose every patch ends within the
file leaves the file length unchanged and leaves every byte lying outside
all patched ranges identical to the input.  (Unconditionally — the original
claim — this is false: `apply_patches_to` grows the buffer when a patch
extends past the end of the file, and a successful planning run can emit
such a patch; see the counterexample.) -/
theorem apply_patches_to_preserves (patches : List Patch)
    (binary_data : List Nat)
    (hb : ∀ p ∈ patches, p.offset + p.data.length ≤ binary_data.length) :
    (apply_patches_to patches binary_data).length = binary_data.length ∧
    ∀ i, (∀ p ∈ patches, i < p.offset ∨ p.offset + p.data.length ≤ i) →
      (apply_patches_to patches binary_data)[i]? = binary_data[i]? := by
  induction patches generalizing binary_data with
  | nil => exact ⟨rfl, fun i _ => rfl⟩
  | cons p ps ih =>
    have hp : p.offset + p.data.length ≤ binary_data.length :=
      hb p (List.mem_cons_self p ps)
    have hlen := apply_patch_length binary_data p hp
    have hb2 : ∀ q ∈ ps,
        q.offset + q.data.length ≤ (apply_patch binary_data p).length := by
      intro q hq
      rw [hlen]
      exact hb q (List.mem_cons_of_mem p hq)
    obtain ⟨ih1, ih2⟩ := ih (apply_patch binary_data p) hb2
    have hfold : apply_patches_to (p :: ps) binary_data =
        apply_patches_to ps (apply_patch binary_data p) := by
      simp [apply_patches_to]
    constructor
    · rw [hfold, ih1, hlen]
    · intro i hi
      rw [hfold, ih2 i (fun q hq => hi q (List.mem_cons_of_mem p hq))]
      exact apply_patch_getElem_outside binary_data p hp i
        (hi p (List.mem_cons_self p ps))

/-- Witness for C4 (amended) at a concrete input. -/
theorem apply_patches_to_preserves_witness :
    (∀ p ∈ [Patch.mk 1 [7]],
       p.offset + p.data.length ≤ ([1, 2, 3] : List Nat).length) ∧
    ((apply_patches_to [Patch.mk 1 [7]] [1, 2, 3]).length =
       ([1, 2, 3] : List Nat).length ∧
     ∀ i, (∀ p ∈ [Patch.mk 1 [7]],
         i < p.offset ∨ p.offset + p.data.length ≤ i) →
       (apply_patches_to [Patch.mk 1 [7]] [1, 2, 3])[i]? =
         ([1, 2, 3] : List Nat)[i]?) :=
  ⟨by decide, apply_patches_to_preserves [Patch.mk 1 [7]] [1, 2, 3]
    (by decide)⟩

/-- A view whose `.interp` section occupies the last 3 bytes of a 10-byte
file: its header is entirely consistent with the file. -/
def tailInterpView : ElfView :=
  { cls := .ELF64
    endianness := .Little
    shdr_interp := ⟨7, 3⟩
    dynstr_offset := 20
    dynstr_data := [0]
    dynamic_offset := 30
    dynamic_table := ⟨[⟨0, 0⟩], none⟩ }

/-- C4 counterexample: a successful planning run (an interpreter path of
length 3 against `sh_size(.interp) = 3`, accepted by the source's
`sh_size < len` check) emits a patch whose end lies one byte past the end of
the 10-byte file; applying it **grows** the file to 11 bytes, so applying
the emitted patch set does not preserve file length. -/
theorem run_can_change_file_length :
    run_patchelfdd tailInterpView (List.replicate 10 9) none
        (some (ascii "/ab")) =
      .ok (List.replicate 7 9 ++ (ascii "/ab" ++ [0])) ∧
    (List.replicate 7 9 ++ (ascii "/ab" ++ [0])).length = 11 ∧
    (List.replicate 10 9 : List Nat).length = 10 :=
  ⟨rfl, rfl, rfl⟩

theorem strtabGet_ok_bound (data : List Nat) (i : Nat) (e : List Nat)
    (h : strtabGet data i = .ok e) : i + e.length + 1 ≤ data.length := by
  simp only [strtabGet] at h
  split at h
  · rename_i hi
    split at h
    · cases h
    · rename_i hne
      obtain rfl : (data.drop i).takeWhile (fun b => b ≠ 0) = e :=
        Except.ok.inj h
      have h1 : ((data.drop i).takeWhile (fun b => b ≠ 0)).length ≤
          (data.drop i).length :=
        (List.takeWhile_prefix (fun b => b ≠ 0)).length_le
      have h2 : (data.drop i).length = data.length - i := by simp
      omega
  · cases h

theorem collect_candidates_mem (elf : ElfView) (rp : List Nat) :
    ∀ (fuel idx : Nat) (cs : List (DynstrPatchCandidate × Nat)),
      collect_candidates_loop elf rp fuel idx = .ok cs →
      ∀ x ∈ cs, ∃ e, strtabGet elf.dynstr_data x.2 = .ok e ∧
        rp.length ≤ e.length := by
  intro fuel
  induction fuel with
  | zero =>
      intro idx cs h x hx
      simp only [collect_candidates_loop] at h
      obtain rfl : ([] : List (DynstrPatchCandidate × Nat)) = cs :=
        Except.ok.inj h
      cases hx
  | succ fuel ih =>
      intro idx cs h x hx
      simp only [collect_candidates_loop] at h
      split at h
      · cases hs : strtabGet elf.dynstr_data idx with
        | error e => simp [hs] at h
        | ok entry =>
          simp only [hs] at h
          cases hf : DynstrPatchCandidate.from_string entry with
          | none =>
              simp only [hf] at h
              exact ih _ _ h x hx
          | some cand =>
              simp only [hf] at h
              split at h
              · rename_i hlen
                cases hv : check_valid cand elf with
                | error e => simp [hv] at h
                | ok b =>
                  cases b with
                  | true =>
                      simp only [hv] at h
                      cases hrest : collect_candidates_loop elf rp fuel
                          (idx + entry.length + 1) with
                      | error e => simp [hrest] at h
                      | ok rest =>
                          simp only [hrest] at h
                          obtain rfl : (cand, idx) :: rest = cs :=
                            Except.ok.inj h
                          rcases List.mem_cons.mp hx with rfl | hx2
                          · exact ⟨entry, hs, hlen⟩
                          · exact ih _ _ hrest x hx2
                  | false =>
                      simp only [hv] at h
                      exact ih _ _ h x hx
              · exact ih _ _ h x hx
      · obtain rfl : ([] : List (DynstrPatchCandidate × Nat)) = cs :=
          Except.ok.inj h
        cases hx

theorem foldl_pick_mem :
    ∀ (l : List (DynstrPatchCandidate × Nat))
      (acc : Option (DynstrPatchCandidate × Nat))
      (x : DynstrPatchCandidate × Nat),
      l.foldl pick_max_rank acc = some x → acc = some x ∨ x ∈ l := by
  intro l
  induction l with
  | nil => intro acc x h; exact .inl h
  | cons a l ih =>
    intro acc x h
    rw [List.foldl_cons] at h
    rcases ih _ x h with hf | hm
    · cases acc with
      | none =>
          simp only [pick_max_rank] at hf
          obtain rfl : a = x := Option.some.inj hf
          exact .inr (List.mem_cons_self a l)
      | some b =>
          simp only [pick_max_rank] at hf
          split at hf
          · obtain rfl : a = x := Option.some.inj hf
            exact .inr (List.mem_cons_self a l)
          · exact .inl hf
    · exact .inr (List.mem_cons_of_mem a hm)

theorem max_by_rank_mem (l : List (DynstrPatchCandidate × Nat))
    (x : DynstrPatchCandidate × Nat) (h : max_by_rank l = some x) : x ∈ l := by
  rcases foldl_pick_mem l none x h with h0 | hm
  · cases h0
  · exact hm

theorem set_interpreter_path_ok_elim (elf : ElfView) (ip : List Nat)
    (p : Patch) (h : set_interpreter_path elf ip = .ok p) :
    p.offset = elf.shdr_interp.sh_offset ∧ p.data.length = ip.length + 1 ∧
    ip.length ≤ elf.shdr_interp.sh_size := by
  simp only [set_interpreter_path] at h
  split at h
  · cases h
  · rename_i hfit
    obtain rfl : (⟨elf.shdr_interp.sh_offset, ip ++ [0]⟩ : Patch) = p :=
      Except.ok.inj h
    refine ⟨rfl, by simp, by omega⟩

theorem findIdx_some_lt {α : Type} (p : α → Bool) (l : List α) (i : Nat)
    (h : List.findIdx? p l = some i) : i < l.length :=
  (List.findIdx?_eq_some_iff_findIdx_eq.mp h).1

theorem choose_dyn_slot_lt (t : DynTable) (victim slot : Nat)
    (h : choose_dyn_slot t victim = .ok slot) : slot < t.entries.length := by
  cases hk : t.entries.findIdx? (fun d => d.d_tag == DT_NULL) with
  | none => simp [choose_dyn_slot, hk] at h
  | some k =>
    cases hg : t.get (k + 1) with
    | ok d =>
        simp only [choose_dyn_slot, hk, hg] at h
        obtain rfl : k = slot := Except.ok.inj h
        exact findIdx_some_lt _ _ _ hk
    | error e =>
        cases e with
        | BadOffset j =>
            cases hj : t.entries.findIdx? (fun d => d.d_val == victim) with
            | none => simp [choose_dyn_slot, hk, hg, hj] at h
            | some i =>
                simp only [choose_dyn_slot, hk, hg, hj] at h
                obtain rfl : i = slot := Except.ok.inj h
                exact findIdx_some_lt _ _ _ hj
        | OtherParse c => simp [choose_dyn_slot, hk, hg] at h

theorem bytes_from_signed_long_ok_length (cls : ElfClass) (e : AnyEndian)
    (v : Int) (bs : List Nat) (h : bytes_from_signed_long cls e v = .ok bs) :
    bs.length = wordWidth cls := by
  cases cls with
  | ELF32 =>
    simp only [bytes_from_signed_long] at h
    split at h
    · obtain rfl := (Except.ok.inj h).symm
      simp [orient_length, natToLeBytes_length, wordWidth]
    · cases h
  | ELF64 =>
    simp only [bytes_from_signed_long] at h
    obtain rfl := (Except.ok.inj h).symm
    simp [orient_length, natToLeBytes_length, wordWidth]

theorem bytes_from_unsigned_long_ok_length (cls : ElfClass) (e : AnyEndian)
    (v : Nat) (bs : List Nat) (h : bytes_from_unsigned_long cls e v = .ok bs) :
    bs.length = wordWidth cls := by
  cases cls with
  | ELF32 =>
    simp only [bytes_from_unsigned_long] at h
    split at h
    · obtain rfl := (Except.ok.inj h).symm
      simp [orient_length, natToLeBytes_length, wordWidth]
    · cases h
  | ELF64 =>
    simp only [bytes_from_unsigned_long] at h
    obtain rfl := (Except.ok.inj h).symm
    simp [orient_length, natToLeBytes_length, wordWidth]

theorem set_runpath_dynstr_ok_elim (elf : ElfView) (rp : List Nat)
    (p : Patch) (victim : Nat)
    (h : set_runpath_dynstr elf rp = .ok (p, victim)) :
    p.offset = elf.dynstr_offset + victim ∧
    p.data.length = rp.length + 1 ∧
    victim + rp.length + 1 ≤ elf.dynstr_data.length := by
  cases hcol : collect_candidates_loop elf rp (elf.dynstr_data.length + 1) 1 with
  | error e => simp [set_runpath_dynstr, hcol] at h
  | ok cs =>
    cases hmax : max_by_rank cs with
    | none => simp [set_runpath_dynstr, hcol, hmax] at h
    | some best =>
      cases hget : strtabGet elf.dynstr_data best.2 with
      | error e => simp [set_runpath_dynstr, hcol, hmax, hget] at h
      | ok e0 =>
        simp only [set_runpath_dynstr, hcol, hmax, hget] at h
        have hpair := Except.ok.inj h
        obtain ⟨h1, h2⟩ := Prod.mk.injEq .. |>.mp hpair
        subst h2
        subst h1
        have hmem := max_by_rank_mem cs best hmax
        obtain ⟨e1, he1, hlen1⟩ :=
          collect_candidates_mem elf rp _ _ cs hcol best hmem
        have hbound := strtabGet_ok_bound _ _ _ he1
        exact ⟨rfl, by simp, by omega⟩

theorem set_runpath_dynamic_ok_bounds (elf : ElfView) (victim : Nat)
    (p : Patch) (h : set_runpath_dynamic elf victim = .ok p) :
    elf.dynamic_offset ≤ p.offset ∧
    p.offset + p.data.length ≤
      elf.dynamic_offset +
        elf.dynamic_table.entries.length * entry_size elf.cls := by
  obtain ⟨slot, tag, val, hc, _, _, hoff, hst, hsu, hdata⟩ :=
    set_runpath_dynamic_ok_elim elf victim p h
  have hslot := choose_dyn_slot_lt _ _ _ hc
  have htag := bytes_from_signed_long_ok_length _ _ _ _ hst
  have hval := bytes_from_unsigned_long_ok_length _ _ _ _ hsu
  have hw : wordWidth elf.cls + wordWidth elf.cls = entry_size elf.cls := by
    cases elf.cls <;> rfl
  have hdlen : p.data.length = entry_size elf.cls := by
    rw [hdata, List.length_append, htag, hval, hw]
  have hmul : slot * entry_size elf.cls + entry_size elf.cls ≤
      elf.dynamic_table.entries.length * entry_size elf.cls := by
    rw [← Nat.succ_mul]
    exact Nat.mul_le_mul_right _ hslot
  omega

/-- Two patches occupy non-overlapping byte ranges. -/
def patches_disjoint (p q : Patch) : Prop :=
  p.offset + p.data.length ≤ q.offset ∨ q.offset + q.data.length ≤ p.offset

instance (p q : Patch) : Decidable (patches_disjoint p q) := by
  unfold patches_disjoint
  exact inferInstance

theorem set_runpath_ok_elim (elf : ElfView) (rp : List Nat)
    (ps : List Patch) (h : set_runpath elf rp = .ok ps) :
    ∃ p1 victim p2,
      set_runpath_dynstr elf rp = .ok (p1, victim) ∧
      set_runpath_dynamic elf victim = .ok p2 ∧ ps = [p1, p2] := by
  cases h1 : set_runpath_dynstr elf rp with
  | error e => simp [set_runpath, h1] at h
  | ok pr =>
    cases h2 : set_runpath_dynamic elf pr.2 with
    | error e => simp [set_runpath, h1, h2] at h
    | ok p2 =>
      simp only [set_runpath, h1, h2] at h
      exact ⟨pr.1, pr.2, p2, rfl, h2, (Except.ok.inj h).symm⟩

/-- C9 (amended): provided the three targeted section regions are pairwise
disjoint — the `.interp` region extended by one byte
`[sh_offset, sh_offset + sh_size + 1)` (the interpreter patch may end one
byte past the section, see C3), the `.dynstr` region
`[dynstr_offset, dynstr_offset + sh_size)`, and the parsed `.dynamic` region
`[dynamic_offset, dynamic_offset + entries * entry_size)` — every patch set
emitted by a successful planning run (at most one `set_runpath` followed by
at most one `set_interpreter`) is pairwise non-overlapping.
(Unconditionally — the original claim — this is false: nothing in the
planner checks that the section headers describe disjoint regions; see the
counterexample.) -/
theorem plan_patches_pairwise_disjoint (elf : ElfView)
    (rp_opt ip_opt : Option (List Nat)) (ps : List Patch)
    (h12 : elf.dynstr_offset + elf.dynstr_data.length ≤
             elf.shdr_interp.sh_offset ∨
           elf.shdr_interp.sh_offset + elf.shdr_interp.sh_size + 1 ≤
             elf.dynstr_offset)
    (h13 : elf.dynamic_offset +
             elf.dynamic_table.entries.length * entry_size elf.cls ≤
             elf.shdr_interp.sh_offset ∨
           elf.shdr_interp.sh_offset + elf.shdr_interp.sh_size + 1 ≤
             elf.dynamic_offset)
    (h23 : elf.dynstr_offset + elf.dynstr_data.length ≤
             elf.dynamic_offset ∨
           elf.dynamic_offset +
             elf.dynamic_table.entries.length * entry_size elf.cls ≤
             elf.dynstr_offset)
    (hps : plan elf rp_opt ip_opt = .ok ps) :
    ps.Pairwise patches_disjoint := by
  cases rp_opt with
  | none =>
    cases ip_opt with
    | none =>
      simp only [plan] at hps
      obtain rfl : ([] : List Patch) = ps := Except.ok.inj hps
      exact List.Pairwise.nil
    | some ip =>
      simp only [plan] at hps
      cases hip : set_interpreter_path elf ip with
      | error e => simp [hip] at hps
      | ok p =>
        simp only [hip] at hps
        obtain rfl : [p] = ps := Except.ok.inj hps
        simp [List.pairwise_cons]
  | some rp =>
    simp only [plan] at hps
    cases hgate : has_dt_runpath elf.dynamic_table with
    | error e => simp [hgate] at hps
    | ok b =>
      cases b with
      | true => simp [hgate] at hps
      | false =>
        simp only [hgate] at hps
        cases hsr : set_runpath elf rp with
        | error e => simp [hsr] at hps
        | ok ps1 =>
          simp only [hsr] at hps
          obtain ⟨p1, victim, p2, hd, hdyn, rfl⟩ :=
            set_runpath_ok_elim elf rp ps1 hsr
          obtain ⟨ho1, hl1, hb1⟩ := set_runpath_dynstr_ok_elim elf rp p1
            victim hd
          have hb2 := set_runpath_dynamic_ok_bounds elf victim p2 hdyn
          cases ip_opt with
          | none =>
            obtain rfl : [p1, p2] = ps := Except.ok.inj hps
            simp only [List.pairwise_cons, List.mem_singleton,
              List.not_mem_nil, false_implies, implies_true,
              List.Pairwise.nil, and_true, List.mem_cons]
            intro q hq
            obtain rfl : q = p2 := by
              rcases hq with hq | hq
              · exact hq
              · cases hq
            unfold patches_disjoint
            omega
          | some ip =>
            cases hip : set_interpreter_path elf ip with
            | error e => simp [hip] at hps
            | ok p3 =>
              simp only [hip] at hps
              obtain rfl : [p1, p2] ++ [p3] = ps := Except.ok.inj hps
              obtain ⟨ho3, hl3, hf3⟩ :=
                set_interpreter_path_ok_elim elf ip p3 hip
              show List.Pairwise patches_disjoint [p1, p2, p3]
              simp only [List.pairwise_cons, List.mem_singleton,
                List.not_mem_nil, false_implies, implies_true,
                List.Pairwise.nil, and_true, List.mem_cons]
              refine ⟨?_, ?_⟩
              · intro q hq
                rcases hq with rfl | hq
                · unfold patches_disjoint
                  omega
                · obtain rfl : q = p3 := by
                    rcases hq with hq | hq
                    · exact hq
                    · cases hq
                  unfold patches_disjoint
                  omega
              · intro q hq
                obtain rfl : q = p3 := by
                  rcases hq with hq | hq
                  · exact hq
                  · cases hq
                unfold patches_disjoint
                omega

/-- A view whose `.interp` section header overlaps the `.dynstr` section:
`.interp` starts at file offset 101, inside `.dynstr`'s `[100, 116)`. -/
def overlappingView : ElfView :=
  { cls := .ELF64
    endianness := .Little
    shdr_interp := ⟨101, 5⟩
    dynstr_offset := 100
    dynstr_data := [0] ++ ascii "__gmon_start__" ++ [0]
    dynamic_offset := 200
    dynamic_table := ⟨[⟨0, 0⟩, ⟨0, 0⟩], none⟩ }

/-- C9 counterexample: on a parseable view whose `.interp` header overlaps
`.dynstr`, a successful planning run (set_runpath then set_interpreter)
emits a dynstr patch and an interpreter patch with identical offsets — the
emitted patch set is **not** pairwise non-overlapping. -/
theorem plan_emits_overlapping_patches :
    plan overlappingView (some (ascii "/t")) (some (ascii "/i")) =
      .ok [⟨101, ascii "/t" ++ [0]⟩,
        ⟨200, [29, 0, 0, 0, 0, 0, 0, 0, 1, 0, 0, 0, 0, 0, 0, 0]⟩,
        ⟨101, ascii "/i" ++ [0]⟩] ∧
    ¬ patches_disjoint ⟨101, ascii "/t" ++ [0]⟩ ⟨101, ascii "/i" ++ [0]⟩ :=
  ⟨rfl, by decide⟩

/-- Witness for C9 (amended) at a concrete input with pairwise disjoint
section regions. -/
theorem plan_patches_pairwise_disjoint_witness :
    plan bothEligibleView (some (ascii "/t")) (some (ascii "/i")) =
      .ok [⟨129, ascii "/t" ++ [0]⟩,
        ⟨200, [29, 0, 0, 0, 0, 0, 0, 0, 29, 0, 0, 0, 0, 0, 0, 0]⟩,
        ⟨300, ascii "/i" ++ [0]⟩] ∧
    List.Pairwise patches_disjoint
      [⟨129, ascii "/t" ++ [0]⟩,
       ⟨200, [29, 0, 0, 0, 0, 0, 0, 0, 29, 0, 0, 0, 0, 0, 0, 0]⟩,
       ⟨300, ascii "/i" ++ [0]⟩] :=
  ⟨rfl, plan_patches_pairwise_disjoint bothEligibleView
    (some (ascii "/t")) (some (ascii "/i")) _
    (by decide) (by decide) (by decide) rfl⟩
